import Mathlib

/-!
Verification of the km-api endpoint-descriptor core.

This file gives a shallow embedding, over `List Char` / `String`, of the
path-template resolver (`makeFullPath`, `makeOpenAPIPath` in
`src/lib/index.ts`), the content-type classification and Axios adapters
(`contentTypeCategory`, `extractCharset`, `toAxiosResponseType`,
`makeAxiosAlovaAdapter` in `src/lib/api/V4.2.ts`), the request-body coercer
(`convertRequestBody`, `needsConversion`, `safeConvertRequestBody`) and the
response-envelope builder (`makeResponseSuccessShape`), and proves the spec's
claims about them.

String-replacement scanners take an explicit fuel argument (one unit per
scanned position, so fuel = length of the subject suffices); this keeps every
definition structurally recursive and kernel-computable.
-/

namespace KmApi

/-! ## Path Template Resolver (src/lib/index.ts)

`makeFullPath` runs, for each `[key, value]` entry in order,
`path.replace(new RegExp(':' ++ key ++ '(?=/|$)', 'g'), String(value))` and then
`path.replace(new RegExp('\\{' ++ key ++ '\\}', 'g'), String(value))`.
The scanners below implement the global left-to-right, non-overlapping
replacement of those two literal patterns (the theorems restrict keys to
identifier characters, for which the interpolated regex matches literally, and
values to strings without `$`, which JavaScript replacement strings treat
specially). -/

/-- The `(?=/|$)` lookahead of the colon pattern: the match must be followed by
`/` or the end of the string. -/
def boundaryOk : List Char → Bool
  | [] => true
  | c :: _ => c == '/'

/-- Global replacement of `:key` (followed by `/` or end) by `value`; fuel-indexed
scanner, one fuel unit per position. -/
def scanColon (key value : List Char) : Nat → List Char → List Char
  | 0, s => s
  | _ + 1, [] => []
  | fuel + 1, c :: rest =>
    if c == ':' && key.isPrefixOf rest && boundaryOk (rest.drop key.length) then
      value ++ scanColon key value fuel (rest.drop key.length)
    else
      c :: scanColon key value fuel rest

/-- Global replacement of `{key}` by `value`; fuel-indexed scanner. -/
def scanBrace (key value : List Char) : Nat → List Char → List Char
  | 0, s => s
  | _ + 1, [] => []
  | fuel + 1, c :: rest =>
    if c == '{' && (key ++ [ '}' ]).isPrefixOf rest then
      value ++ scanBrace key value fuel (rest.drop (key.length + 1))
    else
      c :: scanBrace key value fuel rest

def replaceColon (key value s : List Char) : List Char :=
  scanColon key value s.length s

def replaceBrace (key value s : List Char) : List Char :=
  scanBrace key value s.length s

/-- `makeFullPath` of `src/lib/index.ts` (lines 400-416): fold the entries of the
params object, replacing both the Express-style and the OpenAPI-style
placeholder of each key by the (string) value. -/
def makeFullPath (pathShape : String) (params : List (String × String)) : String :=
  String.mk (params.foldl
    (fun path kv => replaceBrace kv.1.data kv.2.data (replaceColon kv.1.data kv.2.data path))
    pathShape.data)

/-- First character class of the `:([a-zA-Z_][a-zA-Z0-9_]*)` pattern. -/
def isIdentStart (c : Char) : Bool := c.isAlpha || c == '_'

/-- Tail character class of the `:([a-zA-Z_][a-zA-Z0-9_]*)` pattern. -/
def isIdentTail (c : Char) : Bool := c.isAlphanum || c == '_'

/-- Scanner for `pathShape.replace(/:([a-zA-Z_][a-zA-Z0-9_]*)/g, '\x7b$1\x7d')`:
a colon followed by an identifier is rewritten to the brace form, greedily
consuming the identifier. -/
def scanOA : Nat → List Char → List Char
  | 0, s => s
  | _ + 1, [] => []
  | fuel + 1, c :: rest =>
    if c == ':' then
      match rest with
      | [] => c :: scanOA fuel []
      | d :: rest2 =>
        if isIdentStart d then
          '{' :: d :: (rest2.takeWhile isIdentTail)
            ++ '}' :: scanOA fuel (rest2.dropWhile isIdentTail)
        else
          c :: scanOA fuel rest
    else
      c :: scanOA fuel rest

/-- `makeOpenAPIPath` of `src/lib/index.ts` (lines 442-445). -/
def makeOpenAPIPath (pathShape : String) : String :=
  String.mk (scanOA pathShape.data.length pathShape.data)

/-! ## Content-Type Adapter (src/lib/api/V4.2.ts) -/

/-- `String.prototype.includes`: `pat` occurs as a contiguous substring. -/
def containsSub (pat : List Char) : List Char → Bool
  | [] => pat.isEmpty
  | c :: rest => pat.isPrefixOf (c :: rest) || containsSub pat rest

def containsSubS (pat s : String) : Bool := containsSub pat.data s.data

/-- The closed response-side catalog (`responseContentTypeSchema`,
`src/lib/api/V4.2.ts` lines 35-160). -/
def responseContentTypeSchema : List String :=
  [ "application/json", "application/xml", "application/octet-stream",
    "application/pdf", "application/zip", "application/gzip",
    "application/x-www-form-urlencoded", "multipart/form-data",
    "application/json-patch+json", "application/merge-patch+json",
    "application/vnd.api+json", "application/ld+json", "application/x-ndjson",
    "application/x-protobuf", "application/msgpack",
    "application/vnd.ms-excel",
    "application/vnd.openxmlformats-officedocument.spreadsheetml.sheet",
    "application/vnd.ms-powerpoint",
    "application/vnd.openxmlformats-officedocument.presentationml.presentation",
    "application/msword",
    "application/vnd.openxmlformats-officedocument.wordprocessingml.document",
    "text/plain", "text/html", "text/css", "text/javascript", "text/csv",
    "text/xml", "text/markdown", "text/yaml",
    "image/png", "image/jpeg", "image/gif", "image/webp", "image/svg+xml",
    "image/bmp", "image/tiff", "image/x-icon", "image/avif", "image/vnd.djvu",
    "audio/mpeg", "audio/ogg", "audio/wav", "audio/webm", "audio/aac",
    "audio/flac",
    "video/mp4", "video/mpeg", "video/ogg", "video/webm", "video/quicktime",
    "video/x-msvideo",
    "application/vnd.github+json", "application/vnd.github.v3+json",
    "application/vnd.github.v3.diff", "application/vnd.github.v3.patch",
    "application/vnd.openstreetmap.data+xml" ]

inductive CTCategory where
  | json | binary | text | xml | formdata
  deriving DecidableEq, Repr

/-- The JSON branch condition of `contentTypeCategory` (lines 1308-1318). -/
def isJsonCT (ct : String) : Bool :=
  ct == "application/json" || ct == "application/ld+json" ||
  ct == "application/vnd.api+json" || ct == "application/json-patch+json" ||
  ct == "application/merge-patch+json" || ct == "application/x-ndjson" ||
  (containsSubS "application/vnd.github" ct && containsSubS "json" ct)

/-- The binary branch condition of `contentTypeCategory` (lines 1321-1333). -/
def isBinaryCT (ct : String) : Bool :=
  ct == "application/octet-stream" || ct == "application/pdf" ||
  ct == "application/zip" || ct == "application/gzip" ||
  ct == "application/msgpack" || ct == "application/x-protobuf" ||
  containsSubS "application/vnd.ms-" ct ||
  containsSubS "application/vnd.openxmlformats-officedocument" ct ||
  "image/".data.isPrefixOf ct.data || "audio/".data.isPrefixOf ct.data ||
  "video/".data.isPrefixOf ct.data

/-- The XML branch condition of `contentTypeCategory` (lines 1338-1342). -/
def isXmlCT (ct : String) : Bool :=
  ct == "application/xml" || ct == "text/xml" || containsSubS "+xml" ct

/-- The form-data branch condition of `contentTypeCategory` (lines 1347-1350). -/
def isFormDataCT (ct : String) : Bool :=
  ct == "multipart/form-data" || ct == "application/x-www-form-urlencoded"

/-- `contentTypeCategory` (lines 1304-1356): first match wins, `text` default. -/
def contentTypeCategory (contentType : String) : CTCategory :=
  if isJsonCT contentType then .json
  else if isBinaryCT contentType then .binary
  else if isXmlCT contentType then .xml
  else if isFormDataCT contentType then .formdata
  else .text

/-- The character class `[a-zA-Z0-9-]` of the charset-capture group. -/
def isCharsetChar (c : Char) : Bool := c.isAlphanum || c == '-'

/-- Case-insensitive (`/i`) prefix test against a lowercase pattern. -/
def ciPrefix : List Char → List Char → Bool
  | [], _ => true
  | _ :: _, [] => false
  | p :: ps, c :: cs => (c.toLower == p) && ciPrefix ps cs

def charsetPat : List Char := [ 'c', 'h', 'a', 'r', 's', 'e', 't', '=' ]

/-- First match of `/charset=([a-zA-Z0-9-]+)/i`: returns the captured charset
run, scanning left to right (a position where `charset=` matches but no
`[a-zA-Z0-9-]` character follows is not a match, as the group needs at least
one character). -/
def findCharsetCI : List Char → Option (List Char)
  | [] => none
  | c :: rest =>
    if ciPrefix charsetPat (c :: rest) then
      match (c :: rest).drop charsetPat.length with
      | [] => findCharsetCI rest
      | d :: ds =>
        if isCharsetChar d then some (d :: ds.takeWhile isCharsetChar)
        else findCharsetCI rest
    else findCharsetCI rest

/-- The fixed `encodingMap` alias table with its `|| 'utf-8'` fallback
(lines 1366-1376; the identical table appears again in
`makeAxiosAlovaAdapter`, lines 1755-1765). -/
def encodingLookup (charset : String) : String :=
  match List.lookup charset
      [ ("utf-8", "utf-8"), ("utf8", "utf8"), ("ascii", "ascii"),
        ("latin1", "latin1"), ("iso-8859-1", "latin1"), ("binary", "binary"),
        ("base64", "base64"), ("hex", "hex") ] with
  | some e => e
  | none => "utf-8"

/-- `extractCharset` (lines 1361-1380): requires a case-sensitive occurrence of
`charset=` (the `includes` guard), then resolves the first case-insensitive
regex match through the alias table, defaulting to `utf-8`. -/
def extractCharset (contentType : String) : String :=
  if containsSubS "charset=" contentType then
    match findCharsetCI contentType.data with
    | some run => encodingLookup (String.mk (run.map Char.toLower))
    | none => "utf-8"
  else "utf-8"

inductive AxiosResponseType where
  | arraybuffer | blob | document | json | text | stream
  deriving DecidableEq, Repr

/-- `AxiosAdapterConfig`: `responseType` plus optional `responseEncoding`. -/
structure AxiosAdapterConfig where
  responseType : AxiosResponseType
  responseEncoding : Option String := none
  deriving DecidableEq, Repr

/-- `toAxiosResponseType` (lines 1401-1424). -/
def toAxiosResponseType (contentType : String) : AxiosAdapterConfig :=
  match contentTypeCategory contentType with
  | .json => { responseType := .json }
  | .binary => { responseType := .blob }
  | .xml => { responseType := .document }
  | .formdata => { responseType := .blob }
  | .text => { responseType := .text, responseEncoding := some (extractCharset contentType) }

/-- Response types of the legacy table-based adapter (`AlovaAxiosResponseType`).
-/
inductive AlovaAxiosResponseType where
  | arraybuffer | blob | document | json | text | stream | formdata
  deriving DecidableEq, Repr

/-- The flat `contentTypeMap` of `makeAxiosAlovaAdapter` (lines 662-738). -/
def alovaContentTypeMap : List (String × AlovaAxiosResponseType) :=
  [ ("application/json", .json), ("application/ld+json", .json),
    ("application/vnd.api+json", .json), ("application/json-patch+json", .json),
    ("application/merge-patch+json", .json), ("application/x-ndjson", .json),
    ("application/vnd.github+json", .json), ("application/vnd.github.v3+json", .json),
    ("application/octet-stream", .blob), ("application/pdf", .blob),
    ("application/zip", .blob), ("application/gzip", .blob),
    ("application/msgpack", .blob), ("application/x-protobuf", .blob),
    ("application/vnd.ms-excel", .blob),
    ("application/vnd.openxmlformats-officedocument.spreadsheetml.sheet", .blob),
    ("application/vnd.ms-powerpoint", .blob),
    ("application/vnd.openxmlformats-officedocument.presentationml.presentation", .blob),
    ("application/msword", .blob),
    ("application/vnd.openxmlformats-officedocument.wordprocessingml.document", .blob),
    ("image/png", .blob), ("image/jpeg", .blob), ("image/gif", .blob),
    ("image/webp", .blob), ("image/svg+xml", .blob), ("image/bmp", .blob),
    ("image/tiff", .blob), ("image/x-icon", .blob), ("image/avif", .blob),
    ("image/vnd.djvu", .blob),
    ("audio/mpeg", .blob), ("audio/ogg", .blob), ("audio/wav", .blob),
    ("audio/webm", .blob), ("audio/aac", .blob), ("audio/flac", .blob),
    ("video/mp4", .blob), ("video/mpeg", .blob), ("video/ogg", .blob),
    ("video/webm", .blob), ("video/quicktime", .blob), ("video/x-msvideo", .blob),
    ("text/plain", .text), ("text/html", .text), ("text/css", .text),
    ("text/javascript", .text), ("text/csv", .text), ("text/xml", .text),
    ("text/markdown", .text), ("text/yaml", .text),
    ("application/xml", .document),
    ("application/vnd.openstreetmap.data+xml", .document),
    ("multipart/form-data", .formdata),
    ("application/x-www-form-urlencoded", .formdata),
    ("application/vnd.github.v3.diff", .text),
    ("application/vnd.github.v3.patch", .text) ]

structure AlovaAdapterConfig where
  responseType : AlovaAxiosResponseType
  responseEncoding : Option String := none
  deriving DecidableEq, Repr

/-- `makeAxiosAlovaAdapter` (lines 654-772): table lookup with `json` default;
`text` and `document` response types get an encoding, default `utf-8`,
refined by the same charset regex and alias table as `extractCharset`.
The `requestContentType` parameter is unused in the source. -/
def makeAxiosAlovaAdapter (responseContentType : String)
    (_requestContentType : Option String) : AlovaAdapterConfig :=
  let responseType := (List.lookup responseContentType alovaContentTypeMap).getD .json
  if responseType = .text || responseType = .document then
    let responseEncoding :=
      if containsSubS "charset=" responseContentType then
        match findCharsetCI responseContentType.data with
        | some run => encodingLookup (String.mk (run.map Char.toLower))
        | none => "utf-8"
      else "utf-8"
    { responseType := responseType, responseEncoding := some responseEncoding }
  else
    { responseType := responseType }

/-- Common directive shape used to compare the two Axios adapters: the
response-type name and the optional encoding. -/
def axiosDirective (cfg : AxiosAdapterConfig) : String × Option String :=
  (match cfg.responseType with
    | .arraybuffer => "arraybuffer" | .blob => "blob" | .document => "document"
    | .json => "json" | .text => "text" | .stream => "stream",
   cfg.responseEncoding)

def alovaDirective (cfg : AlovaAdapterConfig) : String × Option String :=
  (match cfg.responseType with
    | .arraybuffer => "arraybuffer" | .blob => "blob" | .document => "document"
    | .json => "json" | .text => "text" | .stream => "stream"
    | .formdata => "formdata",
   cfg.responseEncoding)

/-! ## Request Body Coercer (src/lib/api/V4.2.ts, lines 1666-2004)

Runtime JavaScript values are modelled by `JSValue`. Numbers are modelled as
integers (the claims only exercise integer payloads); `FormData`,
`URLSearchParams`, `Blob`, `File`, `ArrayBuffer` and `ReadableStream` are
modelled as dedicated constructors carrying the data the coercer stores in
them. Thrown `Error(message)` is modelled as `Except.error message`. -/

/-- A part of a `Blob` as built by the coercer: a string or buffer contents. -/
inductive BlobPart where
  | pstr (s : String)
  | pbuf (bytes : List Nat)
  deriving DecidableEq, Repr

/-- One `FormData` value: a string, a `File`, or a `Blob`. -/
inductive FormEntry where
  | estr (s : String)
  | efile (name ftype : String)
  | eblob (parts : List BlobPart) (btype : String)
  deriving DecidableEq, Repr

mutual
inductive JSValue where
  | null
  | undef
  | boolV (b : Bool)
  | num (n : Int)
  | str (s : String)
  | arr (xs : JSList)
  | obj (fs : JSFields)
  | formData (entries : List (String × FormEntry))
  | urlParams (entries : List (String × String))
  | blob (parts : List BlobPart) (btype : String)
  | file (name ftype : String)
  | arrayBuffer (bytes : List Nat)
  | stream
  deriving Repr

inductive JSList where
  | nil
  | cons (v : JSValue) (rest : JSList)
  deriving Repr

inductive JSFields where
  | nil
  | cons (name : String) (v : JSValue) (rest : JSFields)
  deriving Repr
end

def isStrV : JSValue → Bool
  | .str _ => true
  | _ => false

def isNullish : JSValue → Bool
  | .null => true
  | .undef => true
  | _ => false

/-- `typeof x === 'object'` (for `null` this is also true in JavaScript, but
every call site below has already returned on `null`). -/
def typeofObject : JSValue → Bool
  | .null => true
  | .arr _ => true
  | .obj _ => true
  | .formData _ => true
  | .urlParams _ => true
  | .blob _ _ => true
  | .file _ _ => true
  | .arrayBuffer _ => true
  | .stream => true
  | _ => false

def isArr : JSValue → Bool
  | .arr _ => true
  | _ => false

def isFormDataV : JSValue → Bool
  | .formData _ => true
  | _ => false

def isURLParamsV : JSValue → Bool
  | .urlParams _ => true
  | _ => false

def isBlobV : JSValue → Bool
  | .blob _ _ => true
  | _ => false

def isFileV : JSValue → Bool
  | .file _ _ => true
  | _ => false

def isArrayBufferV : JSValue → Bool
  | .arrayBuffer _ => true
  | _ => false

def isStreamV : JSValue → Bool
  | .stream => true
  | _ => false

/-- Decimal rendering of the modelled numbers (`String(n)` on an integer). -/
def numToString (n : Int) : String :=
  if n < 0 then "-" ++ Nat.repr n.natAbs else Nat.repr n.natAbs

/-- JSON string escaping for the characters the coercer can meet here
(quote, backslash and the common control characters). -/
def jsonEscapeChar (c : Char) : List Char :=
  if c = '"' then [ '\\', '"' ]
  else if c = '\\' then [ '\\', '\\' ]
  else if c = '\n' then [ '\\', 'n' ]
  else if c = '\t' then [ '\\', 't' ]
  else if c = '\r' then [ '\\', 'r' ]
  else [c]

def jsonQuote (s : String) : String :=
  String.mk ('"' :: (s.data.flatMap jsonEscapeChar ++ [ '"' ]))

mutual
/-- `JSON.stringify` on the modelled values. `undefined` at the top level is
not a string in JavaScript; it is unreachable from the coercer (nullish
payloads return early), and rendered as `null` here. Container objects
(`FormData`, `URLSearchParams`, `Blob`, `File`, `ArrayBuffer`,
`ReadableStream`) have no enumerable own properties, so they stringify to
`\x7b\x7d`. -/
def jsonStringify : JSValue → String
  | .null => "null"
  | .undef => "null"
  | .boolV b => if b then "true" else "false"
  | .num n => numToString n
  | .str s => jsonQuote s
  | .arr xs => "[" ++ String.intercalate "," (jsonItems xs) ++ "]"
  | .obj fs => "\x7b" ++ String.intercalate "," (jsonFields fs) ++ "\x7d"
  | .formData _ => "{}"
  | .urlParams _ => "{}"
  | .blob _ _ => "{}"
  | .file _ _ => "{}"
  | .arrayBuffer _ => "{}"
  | .stream => "{}"

/-- Array elements: `undefined` items serialize as `null`. -/
def jsonItems : JSList → List String
  | .nil => []
  | .cons v rest =>
    (match v with
      | .undef => "null"
      | w => jsonStringify w) :: jsonItems rest

/-- Object fields: `undefined`-valued properties are omitted. -/
def jsonFields : JSFields → List String
  | .nil => []
  | .cons k v rest =>
    match v with
    | .undef => jsonFields rest
    | w => (jsonQuote k ++ ":" ++ jsonStringify w) :: jsonFields rest
end

mutual
/-- `String(x)` coercion on the modelled values (arrays join their elements
with commas, nullish elements joining as empty; plain objects and the
container objects yield their `[object ...]` tags; `URLSearchParams` joins
its entries, percent-encoding not modelled). -/
def jsToString : JSValue → String
  | .null => "null"
  | .undef => "undefined"
  | .boolV b => if b then "true" else "false"
  | .num n => numToString n
  | .str s => s
  | .arr xs => String.intercalate "," (arrItemStrings xs)
  | .obj _ => "[object Object]"
  | .formData _ => "[object FormData]"
  | .urlParams ps => String.intercalate "&" (ps.map (fun kv => kv.1 ++ "=" ++ kv.2))
  | .blob _ _ => "[object Blob]"
  | .file _ _ => "[object File]"
  | .arrayBuffer _ => "[object ArrayBuffer]"
  | .stream => "[object ReadableStream]"

def arrItemStrings : JSList → List String
  | .nil => []
  | .cons v rest =>
    (match v with
      | .null => ""
      | .undef => ""
      | w => jsToString w) :: arrItemStrings rest
end

/-- `Object.entries` on the values the form builders can receive (arrays are
excluded by the `!Array.isArray` guards; the container objects have no
enumerable own properties). -/
def jsObjectEntries : JSValue → JSFields
  | .obj fs => fs
  | _ => .nil

/-- Builder of `URLSearchParams` from a plain object: nullish values skipped,
others appended as `String(value)`. -/
def buildURLParams : JSFields → List (String × String)
  | .nil => []
  | .cons k v rest =>
    if isNullish v then buildURLParams rest
    else (k, jsToString v) :: buildURLParams rest

/-- `new URLSearchParams(string)`: split a query string on `&` (empty pieces
skipped) and on the first `=` (percent-decoding not modelled). -/
def parseQueryString (s : String) : List (String × String) :=
  (s.splitOn "&").filterMap (fun part =>
    if part = "" then none
    else match part.splitOn "=" with
      | [] => none
      | k :: rest => some (k, String.intercalate "=" rest))

/-- Array values inside a multipart build: item `i` is appended under
`key[i]`, `File`/`Blob` items directly, others as `String(item)`. -/
def buildFormArrayEntries (key : String) (i : Nat) : JSList → List (String × FormEntry)
  | .nil => []
  | .cons v rest =>
    let subKey := key ++ "[" ++ Nat.repr i ++ "]"
    let entry : FormEntry :=
      match v with
      | .file name ftype => .efile name ftype
      | .blob parts btype => .eblob parts btype
      | w => .estr (jsToString w)
    (subKey, entry) :: buildFormArrayEntries key (i + 1) rest

/-- Builder of `FormData` from a plain object (lines 1736-1764): nullish values
skipped; `File`/`Blob` appended directly; arrays appended as indexed
sub-fields; nested objects JSON-stringified; scalars stringified. -/
def buildFormData : JSFields → List (String × FormEntry)
  | .nil => []
  | .cons k v rest =>
    if isNullish v then buildFormData rest
    else
      (match v with
        | .file name ftype => [(k, .efile name ftype)]
        | .blob parts btype => [(k, .eblob parts btype)]
        | .arr xs => buildFormArrayEntries k 0 xs
        | w =>
          if typeofObject w then [(k, .estr (jsonStringify w))]
          else [(k, .estr (jsToString w))]) ++ buildFormData rest

/-- The message thrown by the XML branch of `convertRequestBody` (line 1824). -/
def xmlConversionError : String :=
  "XML content type requires data to be an XML string. Cannot auto-convert objects to XML."

/-- `convertRequestBody` (lines 1666-1888): per content type, coerce the
payload into the wire representation, throwing (modelled as `.error`) where
the representation cannot be derived. -/
def convertRequestBody (data : JSValue) (contentType : String) :
    Except String JSValue :=
  if isNullish data then .ok data
  else
    match contentType with
    | "application/json" | "application/ld+json" | "application/vnd.api+json"
    | "application/json-patch+json" | "application/merge-patch+json"
    | "application/vnd.github+json" =>
      if isStrV data then .ok data
      else if typeofObject data then .ok (.str (jsonStringify data))
      else .ok (.str (jsonStringify data))
    | "application/x-www-form-urlencoded" =>
      if isURLParamsV data then .ok data
      else if typeofObject data && !isArr data then
        .ok (.urlParams (buildURLParams (jsObjectEntries data)))
      else match data with
        | .str s => .ok (.urlParams (parseQueryString s))
        | _ => .ok data
    | "multipart/form-data" =>
      if isFormDataV data then .ok data
      else if typeofObject data && !isArr data then
        .ok (.formData (buildFormData (jsObjectEntries data)))
      else .ok data
    | "application/octet-stream" | "application/pdf" | "application/zip"
    | "application/gzip" =>
      if isBlobV data || isArrayBufferV data || isStreamV data then .ok data
      else match data with
        | .str s => .ok (.blob [ .pstr s ] contentType)
        | d =>
          if typeofObject d then .ok (.blob [ .pstr (jsonStringify d) ] contentType)
          else .ok d
    | "text/plain" | "text/html" | "text/xml" | "text/csv" | "text/markdown"
    | "text/yaml" =>
      if isStrV data then .ok data
      else if typeofObject data then .ok (.str (jsonStringify data))
      else .ok (.str (jsToString data))
    | "application/xml" =>
      if isStrV data then .ok data
      else if typeofObject data then .error xmlConversionError
      else .ok (.str (jsToString data))
    | "application/msgpack" | "application/x-protobuf" =>
      if isArrayBufferV data || isBlobV data then .ok data
      else .error (contentType ++
        " requires pre-encoded data as ArrayBuffer or Blob. Use appropriate encoding library.")
    | "image/png" | "image/jpeg" | "image/gif" | "image/webp" | "image/svg+xml"
    | "audio/mpeg" | "audio/wav" | "audio/ogg" | "video/mp4" | "video/mpeg"
    | "video/webm" =>
      if isBlobV data || isFileV data then .ok data
      else match data with
        | .arrayBuffer bytes => .ok (.blob [ .pbuf bytes ] contentType)
        | _ => .error (contentType ++ " requires data to be a File, Blob, or ArrayBuffer")
    | "application/graphql" =>
      if isStrV data then .ok data
      else if typeofObject data && (match data with
          | .obj fs =>
            (let rec hasQuery : JSFields → Bool
              | .nil => false
              | .cons k _ rest => k == "query" || hasQuery rest
             hasQuery fs)
          | _ => false) then
        .ok (.str (jsonStringify data))
      else .ok (.str (jsToString data))
    | _ => .ok data

/-- `needsConversion` (lines 1907-1969). -/
def needsConversion (data : JSValue) (contentType : String) : Bool :=
  if isNullish data then false
  else
    match contentType with
    | "application/json" | "application/ld+json" | "application/vnd.api+json"
    | "application/json-patch+json" | "application/merge-patch+json"
    | "application/vnd.github+json" | "application/graphql" =>
      !isStrV data
    | "application/x-www-form-urlencoded" => !isURLParamsV data
    | "multipart/form-data" => !isFormDataV data
    | "application/octet-stream" | "application/pdf" | "application/zip"
    | "application/gzip" =>
      !(isBlobV data || isArrayBufferV data || isStreamV data)
    | "text/plain" | "text/html" | "text/xml" | "text/csv" | "text/markdown"
    | "text/yaml" | "application/xml" =>
      !isStrV data
    | "image/png" | "image/jpeg" | "image/gif" | "image/webp" | "image/svg+xml"
    | "audio/mpeg" | "audio/wav" | "audio/ogg" | "video/mp4" | "video/mpeg"
    | "video/webm" =>
      !(isFileV data || isBlobV data || isArrayBufferV data)
    | _ => false

/-- `safeConvertRequestBody` (lines 1993-2004): convert only when needed. -/
def safeConvertRequestBody (data : JSValue) (contentType : String) :
    Except String JSValue :=
  if needsConversion data contentType then convertRequestBody data contentType
  else .ok data

/-! ## Response Envelope Builder (src/lib/index.ts, lines 545-623)

The schema capability surface used by the envelope builder: object schemas
with named fields, arrays, optionals and the scalar validators, with zod's
default object semantics (unknown keys accepted, required keys must be
present, a missing key behaves as the value `undefined`). `A.merge(B)`
produces the object schema whose shape is `\x7b...A.shape, ...B.shape\x7d`,
i.e. B's fields override A's. -/

mutual
inductive Schema where
  | sString
  | sNumber
  | sBool
  | sArray (elem : Schema)
  | sOptional (elem : Schema)
  | sObject (fields : FieldList)
  deriving Repr

inductive FieldList where
  | nil
  | cons (name : String) (s : Schema) (rest : FieldList)
  deriving Repr
end

def FieldList.names : FieldList → List String
  | .nil => []
  | .cons k _ rest => k :: rest.names

def FieldList.append : FieldList → FieldList → FieldList
  | .nil, b => b
  | .cons k s rest, b => .cons k s (rest.append b)

def FieldList.removeNames (ns : List String) : FieldList → FieldList
  | .nil => .nil
  | .cons k s rest =>
    if k ∈ ns then rest.removeNames ns
    else .cons k s (rest.removeNames ns)

/-- `A.merge(B)` on object schemas: B's fields override A's. -/
def mergeObj : Schema → Schema → Schema
  | .sObject fa, .sObject fb => .sObject ((fa.removeNames fb.names).append fb)
  | _, b => b

def JSFields.lookup (key : String) : JSFields → Option JSValue
  | .nil => none
  | .cons k v rest => if k == key then some v else rest.lookup key

/-- Conjunction of a predicate over the elements of a `JSList`. -/
def allItems (p : JSValue → Bool) : JSList → Bool
  | .nil => true
  | .cons x rest => p x && allItems p rest

mutual
/-- Acceptance of a value by a schema. For object schemas a missing key is
validated as the value `undefined` (so it passes exactly for optional
fields); unknown keys are accepted (zod's default strips them but does not
reject). -/
def validate : Schema → JSValue → Bool
  | .sString, v => isStrV v
  | .sNumber, v =>
    (match v with
      | .num _ => true
      | _ => false)
  | .sBool, v =>
    (match v with
      | .boolV _ => true
      | _ => false)
  | .sOptional e, v =>
    (match v with
      | .undef => true
      | w => validate e w)
  | .sArray e, v =>
    (match v with
      | .arr xs => allItems (fun x => validate e x) xs
      | _ => false)
  | .sObject fs, v =>
    (match v with
      | .obj kvs => validateFields fs kvs
      | _ => false)

def validateFields : FieldList → JSFields → Bool
  | .nil, _ => true
  | .cons k s rest, kvs =>
    (match kvs.lookup k with
      | some x => validate s x
      | none => validate s .undef) && validateFields rest kvs
end

namespace makeResponseSuccessShape

/-- `makeResponseSuccessShape(response, key).item()`:
`z.object(\x7b [key]: response \x7d)`. -/
def item (response : Schema) (key : String) : Schema :=
  .sObject (.cons key response .nil)

/-- `makeResponseSuccessShape(response, key).list(and)`:
`z.object(\x7b [key]: z.array(response) \x7d).merge(and)`. -/
def list (response : Schema) (key : String) (and' : Schema) : Schema :=
  mergeObj (.sObject (.cons key (.sArray response) .nil)) and'

end makeResponseSuccessShape

/-! ## Helper lemmas: substring scanning -/

theorem isPrefixOf_append_self (p b : List Char) : p.isPrefixOf (p ++ b) = true := by
  induction p with
  | nil => simp [List.isPrefixOf]
  | cons c p' ih => simp [List.isPrefixOf, ih]

theorem containsSub_of_isPrefixOf {p s : List Char} (h : p.isPrefixOf s = true) :
    containsSub p s = true := by
  cases s with
  | nil =>
    cases p with
    | nil => rfl
    | cons c p' => simp [List.isPrefixOf] at h
  | cons c rest => simp [containsSub, h]

theorem containsSub_cons {p s : List Char} (c : Char) (h : containsSub p s = true) :
    containsSub p (c :: s) = true := by
  simp [containsSub, h]

theorem containsSub_append_pat (pat a b : List Char) :
    containsSub pat (a ++ (pat ++ b)) = true := by
  induction a with
  | nil => exact containsSub_of_isPrefixOf (isPrefixOf_append_self pat b)
  | cons c a' ih => exact containsSub_cons c ih

theorem takeWhile_eq_self_of_all {p : Char → Bool} :
    ∀ {l : List Char}, l.all p = true → l.takeWhile p = l := by
  intro l
  induction l with
  | nil => intro _; rfl
  | cons c rest ih =>
    intro h
    simp only [List.all_cons, Bool.and_eq_true] at h
    simp [List.takeWhile, h.1, ih h.2]

theorem ciPrefix_head_ne {p c : Char} (ps cs : List Char) (h : c.toLower ≠ p) :
    ciPrefix (p :: ps) (c :: cs) = false := by
  simp [ciPrefix, h]

theorem ciPrefix_lower_self :
    ∀ (p b : List Char), (∀ c ∈ p, c.toLower = c) → ciPrefix p (p ++ b) = true := by
  intro p
  induction p with
  | nil => intro b _; rfl
  | cons c p' ih =>
    intro b h
    have hc : c.toLower = c := h c (List.mem_cons_self c p')
    simp [ciPrefix, hc, ih b (fun d hd => h d (List.mem_cons_of_mem c hd))]

theorem findCharsetCI_skip :
    ∀ (a b : List Char), (∀ c ∈ a, c.toLower ≠ 'c') →
      findCharsetCI (a ++ b) = findCharsetCI b := by
  intro a
  induction a with
  | nil => intro b _; rfl
  | cons c a' ih =>
    intro b h
    have hc : c.toLower ≠ 'c' := h c (List.mem_cons_self c a')
    have hpre : ciPrefix charsetPat (c :: (a' ++ b)) = false :=
      ciPrefix_head_ne _ _ hc
    rw [List.cons_append, findCharsetCI, if_neg (by simp [hpre])]
    exact ih b (fun d hd => h d (List.mem_cons_of_mem c hd))

theorem findCharsetCI_at_match (run : List Char) (hne : run ≠ [])
    (hall : run.all isCharsetChar = true) :
    findCharsetCI (charsetPat ++ run) = some run := by
  obtain ⟨d, run', rfl⟩ := List.exists_cons_of_ne_nil hne
  simp only [List.all_cons, Bool.and_eq_true] at hall
  have hpre : ciPrefix charsetPat (charsetPat ++ (d :: run')) = true :=
    ciPrefix_lower_self charsetPat (d :: run') (by decide)
  have hdrop : (charsetPat ++ (d :: run')).drop charsetPat.length = d :: run' :=
    List.drop_left charsetPat (d :: run')
  rw [show charsetPat ++ (d :: run') =
    'c' :: ('h' :: 'a' :: 'r' :: 's' :: 'e' :: 't' :: '=' :: (d :: run')) from rfl]
  rw [findCharsetCI]
  rw [if_pos (show ciPrefix charsetPat
    ('c' :: ('h' :: 'a' :: 'r' :: 's' :: 'e' :: 't' :: '=' :: (d :: run'))) = true from hpre)]
  rw [show List.drop charsetPat.length
      ('c' :: ('h' :: 'a' :: 'r' :: 's' :: 'e' :: 't' :: '=' :: (d :: run'))) = d :: run'
    from hdrop]
  simp [hall.1, takeWhile_eq_self_of_all hall.2]

/-! ## Claims C2, C3, C6, C7, C8, C10 -/

/-- Claim C2 counterexample: for `application/xml` the classified category is
`xml` (the "document" family), yet the canonical Axios directive carries no
`responseEncoding` — refuting that text *or* document categories carry one. -/
theorem c2_counterexample :
    contentTypeCategory "application/xml" = CTCategory.xml ∧
    (toAxiosResponseType "application/xml").responseEncoding = none := by
  exact ⟨rfl, rfl⟩

/-- Claim C2 (amended): for `toAxiosResponseType`, exactly the `text` category
carries a `responseEncoding`; it defaults to `utf-8` (also when no `charset=`
parameter occurs), a present charset is resolved through the fixed alias
table, and unknown charsets fall back to `utf-8`. -/
theorem c2_text_response_encoding :
    (∀ ct : String,
      (contentTypeCategory ct = .text →
        toAxiosResponseType ct =
          { responseType := .text, responseEncoding := some (extractCharset ct) }) ∧
      (contentTypeCategory ct ≠ .text → (toAxiosResponseType ct).responseEncoding = none) ∧
      (containsSubS "charset=" ct = false → extractCharset ct = "utf-8")) ∧
    (∀ run : List Char, run ≠ [] → run.all isCharsetChar = true →
      extractCharset (String.mk ("text/plain; charset=".data ++ run)) =
        encodingLookup (String.mk (run.map Char.toLower))) ∧
    (extractCharset "text/plain" = "utf-8" ∧
     extractCharset "text/plain; charset=utf-8" = "utf-8" ∧
     extractCharset "text/plain; charset=utf8" = "utf8" ∧
     extractCharset "text/plain; charset=ascii" = "ascii" ∧
     extractCharset "text/plain; charset=latin1" = "latin1" ∧
     extractCharset "text/plain; charset=ISO-8859-1" = "latin1" ∧
     extractCharset "text/plain; charset=binary" = "binary" ∧
     extractCharset "text/plain; charset=base64" = "base64" ∧
     extractCharset "text/plain; charset=hex" = "hex" ∧
     extractCharset "text/plain; charset=windows-1252" = "utf-8") := by
  refine ⟨fun ct => ⟨fun h => ?_, fun h => ?_, fun h => ?_⟩, fun run hne hall => ?_, ?_⟩
  · simp [toAxiosResponseType, h]
  · cases hc : contentTypeCategory ct <;>
      first
      | exact absurd hc h
      | simp [toAxiosResponseType, hc]
  · simp [extractCharset, h]
  · have hdata : ("text/plain; charset=".data : List Char) =
        "text/plain; ".data ++ charsetPat := by decide
    have hcontains :
        containsSubS "charset=" (String.mk ("text/plain; charset=".data ++ run)) = true := by
      show containsSub "charset=".data ("text/plain; charset=".data ++ run) = true
      rw [hdata, List.append_assoc]
      exact containsSub_append_pat _ _ _
    have hfind : findCharsetCI ("text/plain; charset=".data ++ run) = some run := by
      rw [hdata, List.append_assoc, findCharsetCI_skip _ _ (by decide)]
      exact findCharsetCI_at_match run hne hall
    show extractCharset _ = _
    rw [extractCharset]
    simp only [hcontains, if_true]
    show (match findCharsetCI ("text/plain; charset=".data ++ run) with
      | some r => encodingLookup (String.mk (r.map Char.toLower))
      | none => "utf-8") = _
    rw [hfind]
  · exact ⟨rfl, by decide, by decide, by decide, by decide, by decide, by decide,
      by decide, by decide, by decide⟩

/-- Claim C2 witness: a concrete text-category type through the amended
theorem. -/
theorem c2_witness :
    toAxiosResponseType "text/csv" =
      { responseType := .text, responseEncoding := some "utf-8" } := by
  have h := (c2_text_response_encoding.1 "text/csv").1 (by decide)
  exact h.trans (by decide)

/-- Claim C3 counterexample: converting an object payload to `application/xml`
does raise the Unsupported-conversion error, but the raised message does not
contain (name) the offending content type `application/xml`. -/
theorem c3_counterexample :
    convertRequestBody (.obj (.cons "a" (.num 1) .nil)) "application/xml" =
      .error xmlConversionError ∧
    containsSubS "application/xml" xmlConversionError = false := by
  exact ⟨rfl, by decide⟩

/-- Claim C3 (amended): for `application/xml`, every structured-object payload
raises the fixed Unsupported-conversion message (which does not name the
content type), and every string payload is passed through unchanged. -/
theorem c3_xml_conversion :
    (∀ fs : JSFields,
      convertRequestBody (.obj fs) "application/xml" = .error xmlConversionError) ∧
    (∀ s : String, convertRequestBody (.str s) "application/xml" = .ok (.str s)) ∧
    containsSubS "application/xml" xmlConversionError = false := by
  exact ⟨fun fs => rfl, fun s => rfl, by decide⟩

/-- Claim C6: content-type classification is total over all strings with
first-match-wins priority json, binary, xml, formdata, and every string
matching none of the four predicates lands in the `text` default. -/
theorem c6_classification_total (ct : String) :
    (contentTypeCategory ct = .json ∨ contentTypeCategory ct = .binary ∨
     contentTypeCategory ct = .xml ∨ contentTypeCategory ct = .formdata ∨
     contentTypeCategory ct = .text) ∧
    (isJsonCT ct = true → contentTypeCategory ct = .json) ∧
    (isJsonCT ct = false → isBinaryCT ct = true → contentTypeCategory ct = .binary) ∧
    (isJsonCT ct = false → isBinaryCT ct = false → isXmlCT ct = true →
      contentTypeCategory ct = .xml) ∧
    (isJsonCT ct = false → isBinaryCT ct = false → isXmlCT ct = false →
      isFormDataCT ct = true → contentTypeCategory ct = .formdata) ∧
    (isJsonCT ct = false → isBinaryCT ct = false → isXmlCT ct = false →
      isFormDataCT ct = false → contentTypeCategory ct = .text) := by
  refine ⟨?_, fun h1 => ?_, fun h1 h2 => ?_, fun h1 h2 h3 => ?_,
    fun h1 h2 h3 h4 => ?_, fun h1 h2 h3 h4 => ?_⟩
  · cases h : contentTypeCategory ct <;> simp
  all_goals simp [contentTypeCategory, *]

/-- Claim C6 witness: an arbitrary unrecognized string falls back to `text`. -/
theorem c6_witness : contentTypeCategory "application/x-custom-thing" = .text := by
  exact (c6_classification_total "application/x-custom-thing").2.2.2.2.2
    (by decide) (by decide) (by decide) (by decide)

/-- Claim C7: whenever `needsConversion` is false, `safeConvertRequestBody`
returns the payload itself unchanged; and `needsConversion` is false on
`null` and `undefined` for every content type. -/
theorem c7_safe_convert_identity :
    (∀ (v : JSValue) (ct : String), needsConversion v ct = false →
      safeConvertRequestBody v ct = .ok v) ∧
    (∀ ct : String, needsConversion .null ct = false ∧ needsConversion .undef ct = false) := by
  constructor
  · intro v ct h
    simp [safeConvertRequestBody, h]
  · intro ct
    exact ⟨rfl, rfl⟩

/-- Claim C7 witness: a string payload for `text/plain` needs no conversion and
is returned unchanged. -/
theorem c7_witness :
    needsConversion (.str "x") "text/plain" = false ∧
    safeConvertRequestBody (.str "x") "text/plain" = .ok (.str "x") := by
  exact ⟨rfl, c7_safe_convert_identity.1 (.str "x") "text/plain" rfl⟩

/-- Claim C8 counterexample: `null` is a non-string payload, yet
`safeConvertRequestBody` returns it unchanged rather than JSON-serializing it
to the string `"null"`. -/
theorem c8_counterexample :
    safeConvertRequestBody .null "application/json" = .ok .null ∧
    safeConvertRequestBody .null "application/json" ≠
      .ok (.str (jsonStringify JSValue.null)) := by
  refine ⟨rfl, fun h => ?_⟩
  rw [show safeConvertRequestBody .null "application/json" = .ok .null from rfl] at h
  injection h with h'
  exact JSValue.noConfusion h'

/-- The `convertRequestBody` JSON family (its json-branch content types). -/
def jsonRequestFamily : List String :=
  [ "application/json", "application/ld+json", "application/vnd.api+json",
    "application/json-patch+json", "application/merge-patch+json",
    "application/vnd.github+json" ]

set_option maxHeartbeats 1600000 in
/-- Claim C8 (amended): for json-family request content types,
`safeConvertRequestBody` passes string payloads through unchanged, returns
`null`/`undefined` unchanged, and JSON-serializes every other payload; in
particular the two concrete examples of the claim hold. -/
theorem c8_json_conversion :
    (∀ ct ∈ jsonRequestFamily, ∀ s : String,
      safeConvertRequestBody (.str s) ct = .ok (.str s)) ∧
    (∀ ct ∈ jsonRequestFamily, ∀ v : JSValue, isStrV v = false → isNullish v = false →
      safeConvertRequestBody v ct = .ok (.str (jsonStringify v))) ∧
    safeConvertRequestBody (.str "\x7b\"name\":\"a\"\x7d") "application/json" =
      .ok (.str "\x7b\"name\":\"a\"\x7d") ∧
    safeConvertRequestBody (.obj (.cons "name" (.str "a") .nil)) "application/json" =
      .ok (.str "\x7b\"name\":\"a\"\x7d") := by
  refine ⟨fun ct hct s => ?_, fun ct hct v hs hn => ?_, rfl, rfl⟩
  · simp only [jsonRequestFamily, List.mem_cons, List.not_mem_nil, or_false] at hct
    rcases hct with rfl | rfl | rfl | rfl | rfl | rfl <;> rfl
  · simp only [jsonRequestFamily, List.mem_cons, List.not_mem_nil, or_false] at hct
    rcases hct with rfl | rfl | rfl | rfl | rfl | rfl <;>
      simp [safeConvertRequestBody, needsConversion, convertRequestBody, hs, hn]

/-- Claim C8 witness: a non-string, non-null payload is JSON-serialized. -/
theorem c8_witness :
    safeConvertRequestBody (.num 5) "application/ld+json" = .ok (.str "5") := by
  have h := c8_json_conversion.2.1 "application/ld+json"
    (by simp [jsonRequestFamily]) (.num 5) rfl rfl
  exact h

/-- Claim C10 counterexample: on the catalog type `text/xml` the legacy
table-based adapter yields `text` with encoding `utf-8` while the canonical
category-based adapter yields `document` without encoding. -/
theorem c10_counterexample :
    alovaDirective (makeAxiosAlovaAdapter "text/xml" none) = ("text", some "utf-8") ∧
    axiosDirective (toAxiosResponseType "text/xml") = ("document", none) ∧
    alovaDirective (makeAxiosAlovaAdapter "text/xml" none) ≠
      axiosDirective (toAxiosResponseType "text/xml") := by
  exact ⟨by decide, by decide, by decide⟩

/-- The catalog types on which the two Axios adapters disagree. -/
def axiosAdapterExceptions : List String :=
  [ "application/xml", "text/xml", "application/vnd.openstreetmap.data+xml",
    "multipart/form-data", "application/x-www-form-urlencoded",
    "application/msword" ]

set_option maxHeartbeats 1000000 in
/-- Claim C10 (amended): on every content type of the closed response catalog
except the three xml-family types (where the legacy adapter attaches an
encoding and/or picks `text`), the two form-data types (legacy `formdata`
versus canonical `blob`) and `application/msword` (legacy `blob` versus
canonical `text`), the legacy and the canonical Axios adapters produce the
same directive. -/
theorem c10_adapters_agree :
    ∀ ct ∈ responseContentTypeSchema, ct ∉ axiosAdapterExceptions →
      alovaDirective (makeAxiosAlovaAdapter ct none) =
        axiosDirective (toAxiosResponseType ct) := by
  decide

/-- Claim C10 witness: agreement at `application/json`. -/
theorem c10_witness :
    alovaDirective (makeAxiosAlovaAdapter "application/json" none) =
      axiosDirective (toAxiosResponseType "application/json") := by
  exact c10_adapters_agree "application/json" (by decide) (by decide)

/-! ## Claim C4: idempotence of makeOpenAPIPath -/

def headIsIdentStart : List Char → Bool
  | [] => false
  | d :: _ => isIdentStart d

/-- A string on which the `:identifier` pattern has no match: no `:` is
immediately followed by an identifier-start character. -/
def okOA : List Char → Bool
  | [] => true
  | c :: rest => (!(c == ':' && headIsIdentStart rest)) && okOA rest

theorem identStart_ne_colon {c : Char} (h : isIdentStart c = true) : c ≠ ':' := by
  rintro rfl
  simp [isIdentStart] at h

theorem identTail_ne_colon {c : Char} (h : isIdentTail c = true) : c ≠ ':' := by
  rintro rfl
  simp [isIdentTail] at h

theorem okOA_tail {c : Char} {rest : List Char} (h : okOA (c :: rest) = true) :
    okOA rest = true := by
  simp only [okOA, Bool.and_eq_true] at h
  exact h.2

theorem okOA_head {c : Char} {rest : List Char} (h : okOA (c :: rest) = true) :
    (c == ':' && headIsIdentStart rest) = false := by
  simp only [okOA, Bool.and_eq_true, Bool.not_eq_eq_eq_not, Bool.not_true] at h
  exact h.1

theorem okOA_append :
    ∀ (a b : List Char), (∀ c ∈ a, c ≠ ':') → okOA b = true → okOA (a ++ b) = true := by
  intro a
  induction a with
  | nil => intro b _ hb; exact hb
  | cons c a' ih =>
    intro b h hb
    have hc : c ≠ ':' := h c (List.mem_cons_self c a')
    have : (c == ':') = false := by simp [hc]
    simp only [List.cons_append, okOA, this, Bool.false_and, Bool.not_false, Bool.true_and]
    exact ih b (fun d hd => h d (List.mem_cons_of_mem c hd)) hb

theorem scanOA_nil : ∀ f, scanOA f [] = [] := by
  intro f
  cases f <;> rfl

theorem length_dropWhile_le (p : Char → Bool) :
    ∀ l : List Char, (l.dropWhile p).length ≤ l.length := by
  intro l
  induction l with
  | nil => exact le_rfl
  | cons c r ih =>
    cases hp : p c with
    | true => simp only [List.dropWhile, hp]; exact le_trans ih (Nat.le_succ _)
    | false => simp [List.dropWhile, hp]

/-- The head of the scanner output on a non-identifier-start head is that head
or an opening brace, never an identifier-start character. -/
theorem scanOA_head_not_identStart (f : Nat) (d : Char) (r : List Char)
    (hd : isIdentStart d = false) :
    headIsIdentStart (scanOA f (d :: r)) = false := by
  cases f with
  | zero => exact hd
  | succ f' =>
    by_cases hc : d = ':'
    · subst hc
      cases r with
      | nil => simp [scanOA, headIsIdentStart, isIdentStart]
      | cons e r2 =>
        by_cases he : isIdentStart e = true
        · have hstep : scanOA (f' + 1) (':' :: e :: r2) =
              '{' :: e :: (r2.takeWhile isIdentTail)
                ++ '}' :: scanOA f' (r2.dropWhile isIdentTail) := by
            simp [scanOA, he]
          rw [hstep]
          rfl
        · simp only [Bool.not_eq_true] at he
          have hstep : scanOA (f' + 1) (':' :: e :: r2) = ':' :: scanOA f' (e :: r2) := by
            simp [scanOA, he]
          rw [hstep]
          rfl
    · have hcb : (d == ':') = false := by simp [hc]
      have hstep : scanOA (f' + 1) (d :: r) = d :: scanOA f' r := by
        simp [scanOA, hcb]
      rw [hstep]
      exact hd

/-- Strings without a `:identifier` match are fixed points of the scanner, for
every fuel. -/
theorem scanOA_fix : ∀ (s : List Char), okOA s = true → ∀ f, scanOA f s = s := by
  intro s
  induction s with
  | nil => intro _ f; exact scanOA_nil f
  | cons c rest ih =>
    intro h f
    have hrest := okOA_tail h
    have hhead := okOA_head h
    cases f with
    | zero => rfl
    | succ f' =>
      by_cases hc : c = ':'
      · subst hc
        simp only [beq_self_eq_true, Bool.true_and] at hhead
        cases rest with
        | nil => simp [scanOA, scanOA_nil]
        | cons d r2 =>
          have hd : isIdentStart d = false := hhead
          simp [scanOA, hd, ih hrest]
      · have hcb : (c == ':') = false := by simp [hc]
        simp [scanOA, hcb, ih hrest]

/-- The scanner output never contains a `:identifier` match (with enough fuel).
-/
theorem scanOA_ok : ∀ (f : Nat) (s : List Char), s.length ≤ f →
    okOA (scanOA f s) = true := by
  intro f
  induction f with
  | zero =>
    intro s hs
    have : s = [] := List.eq_nil_of_length_eq_zero (Nat.le_zero.mp hs)
    subst this
    rfl
  | succ f' ih =>
    intro s hs
    cases s with
    | nil => rfl
    | cons c rest =>
      have hrest : rest.length ≤ f' := Nat.le_of_succ_le_succ hs
      by_cases hc : c = ':'
      · subst hc
        cases rest with
        | nil => simp [scanOA, scanOA_nil, okOA, headIsIdentStart]
        | cons d rest2 =>
          by_cases hd : isIdentStart d = true
          · have hrem : (rest2.dropWhile isIdentTail).length ≤ f' :=
              le_trans (length_dropWhile_le _ _)
                (le_trans (Nat.le_succ _) hrest)
            have hb := ih (rest2.dropWhile isIdentTail) hrem
            have ha : ∀ e ∈ '{' :: d :: (rest2.takeWhile isIdentTail ++ [ '}' ]), e ≠ ':' := by
              intro e he
              rcases List.mem_cons.mp he with rfl | he2
              · decide
              rcases List.mem_cons.mp he2 with rfl | he3
              · exact identStart_ne_colon hd
              rcases List.mem_append.mp he3 with he4 | he5
              · exact identTail_ne_colon (List.mem_takeWhile_imp he4)
              · rcases List.mem_singleton.mp he5 with rfl
                decide
            have happ := okOA_append _ (scanOA f' (rest2.dropWhile isIdentTail)) ha hb
            simp only [List.cons_append, List.append_assoc, List.singleton_append] at happ
            simpa [scanOA, hd] using happ
          · simp only [Bool.not_eq_true] at hd
            have hout := scanOA_head_not_identStart f' d rest2 hd
            have hrec := ih (d :: rest2) hrest
            simp [scanOA, hd, okOA, hout, hrec]
      · have hcb : (c == ':') = false := by simp [hc]
        have hout : okOA (scanOA f' rest) = true := ih rest hrest
        have hhead : (c == ':' && headIsIdentStart (scanOA f' rest)) = false := by
          simp [hcb]
        simp [scanOA, hcb, okOA, hhead, hout]

/-- Claim C4: `makeOpenAPIPath` is idempotent — rewriting colon-prefixed
identifier tokens to brace form twice yields the same string as once, for
every template string. -/
theorem c4_makeOpenAPIPath_idempotent (x : String) :
    makeOpenAPIPath (makeOpenAPIPath x) = makeOpenAPIPath x := by
  show String.mk (scanOA (scanOA x.data.length x.data).length (scanOA x.data.length x.data)) =
    String.mk (scanOA x.data.length x.data)
  exact congrArg String.mk
    (scanOA_fix _ (scanOA_ok x.data.length x.data le_rfl) _)

/-! ## Helper lemmas: the two placeholder-replacement scanners -/

theorem scanColon_cons (k v : List Char) (f : Nat) (c : Char) (rest : List Char) :
    scanColon k v (f + 1) (c :: rest) =
      if c == ':' && k.isPrefixOf rest && boundaryOk (rest.drop k.length) then
        v ++ scanColon k v f (rest.drop k.length)
      else c :: scanColon k v f rest := rfl

theorem scanBrace_cons (k v : List Char) (f : Nat) (c : Char) (rest : List Char) :
    scanBrace k v (f + 1) (c :: rest) =
      if c == '{' && (k ++ [ '}' ]).isPrefixOf rest then
        v ++ scanBrace k v f (rest.drop (k.length + 1))
      else c :: scanBrace k v f rest := rfl

theorem scanColon_nil (k v : List Char) : ∀ f, scanColon k v f [] = [] := by
  intro f
  cases f <;> rfl

theorem scanBrace_nil (k v : List Char) : ∀ f, scanBrace k v f [] = [] := by
  intro f
  cases f <;> rfl

/-- The colon scanner's output does not depend on the fuel, as long as there is
at least one unit per character. -/
theorem scanColon_congr (k v : List Char) :
    ∀ (f₁ : Nat) (s : List Char) (f₂ : Nat), s.length ≤ f₁ → s.length ≤ f₂ →
      scanColon k v f₁ s = scanColon k v f₂ s := by
  intro f₁
  induction f₁ with
  | zero =>
    intro s f₂ h₁ _
    have : s = [] := List.eq_nil_of_length_eq_zero (Nat.le_zero.mp h₁)
    subst this
    exact (scanColon_nil k v f₂).symm
  | succ f₁' ih =>
    intro s f₂ h₁ h₂
    cases s with
    | nil => rw [scanColon_nil, scanColon_nil]
    | cons c rest =>
      cases f₂ with
      | zero => exact absurd h₂ (by simp)
      | succ f₂' =>
        rw [scanColon_cons, scanColon_cons]
        have hr₁ : rest.length ≤ f₁' := Nat.le_of_succ_le_succ h₁
        have hr₂ : rest.length ≤ f₂' := Nat.le_of_succ_le_succ h₂
        have hd₁ : (rest.drop k.length).length ≤ f₁' :=
          le_trans (by rw [List.length_drop]; exact Nat.sub_le _ _) hr₁
        have hd₂ : (rest.drop k.length).length ≤ f₂' :=
          le_trans (by rw [List.length_drop]; exact Nat.sub_le _ _) hr₂
        by_cases hcond :
            (c == ':' && k.isPrefixOf rest && boundaryOk (rest.drop k.length)) = true
        · rw [if_pos hcond, if_pos hcond, ih _ _ hd₁ hd₂]
        · rw [if_neg hcond, if_neg hcond, ih _ _ hr₁ hr₂]

theorem scanBrace_congr (k v : List Char) :
    ∀ (f₁ : Nat) (s : List Char) (f₂ : Nat), s.length ≤ f₁ → s.length ≤ f₂ →
      scanBrace k v f₁ s = scanBrace k v f₂ s := by
  intro f₁
  induction f₁ with
  | zero =>
    intro s f₂ h₁ _
    have : s = [] := List.eq_nil_of_length_eq_zero (Nat.le_zero.mp h₁)
    subst this
    exact (scanBrace_nil k v f₂).symm
  | succ f₁' ih =>
    intro s f₂ h₁ h₂
    cases s with
    | nil => rw [scanBrace_nil, scanBrace_nil]
    | cons c rest =>
      cases f₂ with
      | zero => exact absurd h₂ (by simp)
      | succ f₂' =>
        rw [scanBrace_cons, scanBrace_cons]
        have hr₁ : rest.length ≤ f₁' := Nat.le_of_succ_le_succ h₁
        have hr₂ : rest.length ≤ f₂' := Nat.le_of_succ_le_succ h₂
        have hd₁ : (rest.drop (k.length + 1)).length ≤ f₁' :=
          le_trans (by rw [List.length_drop]; exact Nat.sub_le _ _) hr₁
        have hd₂ : (rest.drop (k.length + 1)).length ≤ f₂' :=
          le_trans (by rw [List.length_drop]; exact Nat.sub_le _ _) hr₂
        by_cases hcond : (c == '{' && (k ++ [ '}' ]).isPrefixOf rest) = true
        · rw [if_pos hcond, if_pos hcond, ih _ _ hd₁ hd₂]
        · rw [if_neg hcond, if_neg hcond, ih _ _ hr₁ hr₂]

theorem replaceColon_cons_skip (k v : List Char) {c : Char} (rest : List Char)
    (hc : c ≠ ':') :
    replaceColon k v (c :: rest) = c :: replaceColon k v rest := by
  show scanColon k v (rest.length + 1) (c :: rest) = _
  rw [scanColon_cons, if_neg (by simp [hc])]
  rfl

theorem replaceBrace_cons_skip (k v : List Char) {c : Char} (rest : List Char)
    (hc : c ≠ '{') :
    replaceBrace k v (c :: rest) = c :: replaceBrace k v rest := by
  show scanBrace k v (rest.length + 1) (c :: rest) = _
  rw [scanBrace_cons, if_neg (by simp [hc])]
  rfl

theorem replaceColon_append_skip (k v : List Char) :
    ∀ (a b : List Char), (∀ c ∈ a, c ≠ ':') →
      replaceColon k v (a ++ b) = a ++ replaceColon k v b := by
  intro a
  induction a with
  | nil => intro b _; rfl
  | cons c a' ih =>
    intro b h
    rw [List.cons_append,
      replaceColon_cons_skip k v (a' ++ b) (h c (List.mem_cons_self c a')),
      ih b (fun d hd => h d (List.mem_cons_of_mem c hd))]
    rfl

theorem replaceBrace_append_skip (k v : List Char) :
    ∀ (a b : List Char), (∀ c ∈ a, c ≠ '{') →
      replaceBrace k v (a ++ b) = a ++ replaceBrace k v b := by
  intro a
  induction a with
  | nil => intro b _; rfl
  | cons c a' ih =>
    intro b h
    rw [List.cons_append,
      replaceBrace_cons_skip k v (a' ++ b) (h c (List.mem_cons_self c a')),
      ih b (fun d hd => h d (List.mem_cons_of_mem c hd))]
    rfl

theorem replaceColon_id (k v : List Char) :
    ∀ (s : List Char), (∀ c ∈ s, c ≠ ':') → replaceColon k v s = s := by
  intro s
  induction s with
  | nil => intro _; rfl
  | cons c rest ih =>
    intro h
    rw [replaceColon_cons_skip k v rest (h c (List.mem_cons_self c rest)),
      ih (fun d hd => h d (List.mem_cons_of_mem c hd))]

theorem replaceBrace_id (k v : List Char) :
    ∀ (s : List Char), (∀ c ∈ s, c ≠ '{') → replaceBrace k v s = s := by
  intro s
  induction s with
  | nil => intro _; rfl
  | cons c rest ih =>
    intro h
    rw [replaceBrace_cons_skip k v rest (h c (List.mem_cons_self c rest)),
      ih (fun d hd => h d (List.mem_cons_of_mem c hd))]

/-- Replacing `:key` at a position where the key occurs with a legal boundary.
-/
theorem replaceColon_match (k v b : List Char) (hb : boundaryOk b = true) :
    replaceColon k v (':' :: (k ++ b)) = v ++ replaceColon k v b := by
  show scanColon k v ((k ++ b).length + 1) (':' :: (k ++ b)) = _
  rw [scanColon_cons,
    if_pos (by simp [isPrefixOf_append_self, List.drop_left, hb])]
  rw [List.drop_left]
  exact congrArg (v ++ ·)
    (scanColon_congr k v _ b b.length (by simp) le_rfl)

/-- Replacing `\x7bkey\x7d` at a position where it occurs. -/
theorem replaceBrace_match (k v r : List Char) :
    replaceBrace k v ('{' :: (k ++ '}' :: r)) = v ++ replaceBrace k v r := by
  have hsplit : k ++ '}' :: r = (k ++ [ '}' ]) ++ r := by simp
  show scanBrace k v ((k ++ '}' :: r).length + 1) ('{' :: (k ++ '}' :: r)) = _
  rw [scanBrace_cons,
    if_pos (by rw [hsplit]; simp [isPrefixOf_append_self])]
  have hdrop : (k ++ '}' :: r).drop (k.length + 1) = r := by
    rw [hsplit, show k.length + 1 = (k ++ [ '}' ]).length by simp, List.drop_left]
  rw [hdrop]
  exact congrArg (v ++ ·)
    (scanBrace_congr k v _ r r.length (by simp; omega) le_rfl)

/-- The character class of safe placeholder names and mapping keys
(`[A-Za-z0-9_]`: literal in a regular expression, free of the placeholder
delimiters). -/
def isIdentChar (c : Char) : Bool := c.isAlphanum || c == '_'

theorem identChar_ne_colon {c : Char} (h : isIdentChar c = true) : c ≠ ':' := by
  rintro rfl
  exact absurd h (by decide)

theorem identChar_ne_slash {c : Char} (h : isIdentChar c = true) : c ≠ '/' := by
  rintro rfl
  exact absurd h (by decide)

theorem identChar_ne_lbrace {c : Char} (h : isIdentChar c = true) : c ≠ '{' := by
  rintro rfl
  exact absurd h (by decide)

theorem identChar_ne_rbrace {c : Char} (h : isIdentChar c = true) : c ≠ '}' := by
  rintro rfl
  exact absurd h (by decide)

/-- At a colon followed by a placeholder name `n` other than the key `k` (both
made of identifier characters) and a legal boundary, the colon pattern of `k`
does not match. -/
theorem colon_no_match :
    ∀ (n k r : List Char), n.all isIdentChar = true → k.all isIdentChar = true →
      n ≠ k → boundaryOk r = true →
      (k.isPrefixOf (n ++ r) && boundaryOk ((n ++ r).drop k.length)) = false := by
  intro n
  induction n with
  | nil =>
    intro k r _ hk hne hr
    obtain ⟨c, k', rfl⟩ := List.exists_cons_of_ne_nil (Ne.symm hne)
    simp only [List.all_cons, Bool.and_eq_true] at hk
    cases r with
    | nil => rfl
    | cons x r' =>
      have hx : x = '/' := by simpa [boundaryOk] using hr
      subst hx
      have : ((c :: k').isPrefixOf ('/' :: r')) = false := by
        simp [List.isPrefixOf, identChar_ne_slash hk.1]
      simp [this]
  | cons d n' ih =>
    intro k r hn hk hne hr
    simp only [List.all_cons, Bool.and_eq_true] at hn
    cases k with
    | nil =>
      simp [List.isPrefixOf, boundaryOk, identChar_ne_slash hn.1]
    | cons c k' =>
      simp only [List.all_cons, Bool.and_eq_true] at hk
      by_cases hcd : c = d
      · subst hcd
        have hne' : n' ≠ k' := fun h => hne (by rw [h])
        have := ih k' r hn.2 hk.2 (fun h => hne (by rw [h])) hr
        simpa [List.isPrefixOf, List.drop] using this
      · simp only [List.cons_append, List.isPrefixOf, Bool.and_eq_false_iff]
        left
        left
        simp [hcd]

/-- At a brace placeholder `\x7bn\x7d` with `n ≠ k`, the brace pattern of `k`
does not match. -/
theorem brace_no_match :
    ∀ (n k r : List Char), n.all isIdentChar = true → k.all isIdentChar = true →
      n ≠ k → ((k ++ [ '}' ]).isPrefixOf (n ++ '}' :: r)) = false := by
  intro n
  induction n with
  | nil =>
    intro k r _ hk hne
    obtain ⟨c, k', rfl⟩ := List.exists_cons_of_ne_nil (Ne.symm hne)
    simp only [List.all_cons, Bool.and_eq_true] at hk
    simp [List.isPrefixOf, identChar_ne_rbrace hk.1]
  | cons d n' ih =>
    intro k r hn hk hne
    simp only [List.all_cons, Bool.and_eq_true] at hn
    cases k with
    | nil =>
      simp [List.isPrefixOf, Ne.symm (identChar_ne_rbrace hn.1)]
    | cons c k' =>
      simp only [List.all_cons, Bool.and_eq_true] at hk
      by_cases hcd : c = d
      · subst hcd
        have := ih k' r hn.2 hk.2 (fun h => hne (by rw [h]))
        simpa [List.isPrefixOf] using this
      · simp [List.isPrefixOf, hcd]

/-- A non-matching placeholder under colon replacement is copied unchanged. -/
theorem replaceColon_param_nomatch (k v n r : List Char)
    (hn : n.all isIdentChar = true) (hk : k.all isIdentChar = true)
    (hne : n ≠ k) (hr : boundaryOk r = true) :
    replaceColon k v (':' :: (n ++ r)) = ':' :: (n ++ replaceColon k v r) := by
  show scanColon k v ((n ++ r).length + 1) (':' :: (n ++ r)) = _
  rw [scanColon_cons,
    if_neg (by simp [colon_no_match n k r hn hk hne hr])]
  show ':' :: replaceColon k v (n ++ r) = _
  rw [replaceColon_append_skip k v n r (fun c hc =>
    identChar_ne_colon (by
      rw [List.all_eq_true] at hn
      exact hn c hc))]

/-- A non-matching placeholder under brace replacement is copied unchanged. -/
theorem replaceBrace_param_nomatch (k v n r : List Char)
    (hn : n.all isIdentChar = true) (hk : k.all isIdentChar = true)
    (hne : n ≠ k) :
    replaceBrace k v ('{' :: (n ++ '}' :: r)) = '{' :: (n ++ '}' :: replaceBrace k v r) := by
  show scanBrace k v ((n ++ '}' :: r).length + 1) ('{' :: (n ++ '}' :: r)) = _
  rw [scanBrace_cons, if_neg (by simp [brace_no_match n k r hn hk hne])]
  show '{' :: replaceBrace k v (n ++ '}' :: r) = _
  rw [replaceBrace_append_skip k v n ('}' :: r) (fun c hc =>
    identChar_ne_lbrace (by
      rw [List.all_eq_true] at hn
      exact hn c hc))]
  rw [replaceBrace_cons_skip k v r (by decide)]

/-! ## Path templates as segment lists

A `PathTemplate` is a sequence of literal pieces and named placeholders; the
same template can be rendered in colon notation or in brace notation.
`segsWF` captures the spec's well-formedness: literal pieces are free of the
placeholder delimiters, placeholder names are identifier strings, and in
colon notation every placeholder is followed by `/` or the end of the
template (the `(?=/|$)` boundary). -/

inductive PathSeg where
  | lit : List Char → PathSeg
  | param : List Char → PathSeg
  deriving DecidableEq, Repr

def renderColon : List PathSeg → List Char
  | [] => []
  | .lit s :: t => s ++ renderColon t
  | .param n :: t => ':' :: (n ++ renderColon t)

def renderBrace : List PathSeg → List Char
  | [] => []
  | .lit s :: t => s ++ renderBrace t
  | .param n :: t => '{' :: (n ++ '}' :: renderBrace t)

/-- Characters of literal pieces and of substituted values: not a placeholder
delimiter and not `$` (special in JavaScript replacement strings). -/
def plainChar (c : Char) : Bool := !(c == ':') && !(c == '{') && !(c == '$')

def plainStr (s : List Char) : Bool := s.all plainChar

def segsWF : List PathSeg → Bool
  | [] => true
  | .lit s :: t => plainStr s && segsWF t
  | .param n :: t => n.all isIdentChar && boundaryOk (renderColon t) && segsWF t

def substSeg (k v : List Char) : PathSeg → PathSeg
  | .param n => if n = k then .lit v else .param n
  | s => s

def substSegs1 (k v : List Char) (t : List PathSeg) : List PathSeg :=
  t.map (substSeg k v)

def substAll (m : List (List Char × List Char)) (t : List PathSeg) : List PathSeg :=
  m.foldl (fun acc kv => substSegs1 kv.1 kv.2 acc) t

/-- A well-formed params entry: identifier key, plain value. -/
def entryOK (kv : List Char × List Char) : Bool :=
  kv.1.all isIdentChar && plainStr kv.2

def paramNames : List PathSeg → List (List Char)
  | [] => []
  | .lit _ :: t => paramNames t
  | .param n :: t => n :: paramNames t

/-- The char-list core of `makeFullPath`'s fold over the params entries. -/
def resolveEntries (m : List (List Char × List Char)) (s : List Char) : List Char :=
  m.foldl (fun path kv => replaceBrace kv.1 kv.2 (replaceColon kv.1 kv.2 path)) s

theorem makeFullPath_eq_resolveEntries (l : List Char) (m : List (List Char × List Char)) :
    makeFullPath (String.mk l) (m.map fun kv => (String.mk kv.1, String.mk kv.2)) =
      String.mk (resolveEntries m l) := by
  show String.mk (List.foldl _ _ _) = String.mk (List.foldl _ _ _)
  rw [List.foldl_map]

theorem plainChar_ne_colon {c : Char} (h : plainChar c = true) : c ≠ ':' := by
  rintro rfl
  exact absurd h (by decide)

theorem plainChar_ne_lbrace {c : Char} (h : plainChar c = true) : c ≠ '{' := by
  rintro rfl
  exact absurd h (by decide)

theorem segsWF_lit {s : List Char} {t : List PathSeg}
    (h : segsWF (.lit s :: t) = true) : plainStr s = true ∧ segsWF t = true := by
  simpa [segsWF, Bool.and_eq_true] using h

theorem segsWF_param {n : List Char} {t : List PathSeg}
    (h : segsWF (.param n :: t) = true) :
    n.all isIdentChar = true ∧ boundaryOk (renderColon t) = true ∧ segsWF t = true := by
  simpa [segsWF, Bool.and_eq_true, and_assoc] using h

/-- A colon-rendered well-formed template contains no `\x7b`. -/
theorem renderColon_no_lbrace :
    ∀ (t : List PathSeg), segsWF t = true → ∀ c ∈ renderColon t, c ≠ '{' := by
  intro t
  induction t with
  | nil => intro _ c hc; simp [renderColon] at hc
  | cons seg t' ih =>
    intro h c hc
    cases seg with
    | lit s =>
      obtain ⟨hs, ht⟩ := segsWF_lit h
      rcases List.mem_append.mp hc with hcs | hct
      · exact plainChar_ne_lbrace (by
          rw [plainStr, List.all_eq_true] at hs
          exact hs c hcs)
      · exact ih ht c hct
    | param n =>
      obtain ⟨hn, _, ht⟩ := segsWF_param h
      rcases List.mem_cons.mp hc with rfl | hc2
      · decide
      rcases List.mem_append.mp hc2 with hcn | hct
      · exact identChar_ne_lbrace (by
          rw [List.all_eq_true] at hn
          exact hn c hcn)
      · exact ih ht c hct

/-- A brace-rendered well-formed template contains no `:`. -/
theorem renderBrace_no_colon :
    ∀ (t : List PathSeg), segsWF t = true → ∀ c ∈ renderBrace t, c ≠ ':' := by
  intro t
  induction t with
  | nil => intro _ c hc; simp [renderBrace] at hc
  | cons seg t' ih =>
    intro h c hc
    cases seg with
    | lit s =>
      obtain ⟨hs, ht⟩ := segsWF_lit h
      rcases List.mem_append.mp hc with hcs | hct
      · exact plainChar_ne_colon (by
          rw [plainStr, List.all_eq_true] at hs
          exact hs c hcs)
      · exact ih ht c hct
    | param n =>
      obtain ⟨hn, _, ht⟩ := segsWF_param h
      rcases List.mem_cons.mp hc with rfl | hc2
      · decide
      rcases List.mem_append.mp hc2 with hcn | hct
      · exact identChar_ne_colon (by
          rw [List.all_eq_true] at hn
          exact hn c hcn)
      rcases List.mem_cons.mp hct with rfl | hct2
      · decide
      · exact ih ht c hct2

/-- One colon replacement on a colon-rendered template substitutes exactly the
placeholders named by the key. -/
theorem replaceColon_render :
    ∀ (t : List PathSeg) (k v : List Char), segsWF t = true →
      k.all isIdentChar = true →
      replaceColon k v (renderColon t) = renderColon (substSegs1 k v t) := by
  intro t
  induction t with
  | nil => intro k v _ _; rfl
  | cons seg t' ih =>
    intro k v h hk
    cases seg with
    | lit s =>
      obtain ⟨hs, ht⟩ := segsWF_lit h
      show replaceColon k v (s ++ renderColon t') = s ++ renderColon (substSegs1 k v t')
      rw [replaceColon_append_skip k v s _ (fun c hc =>
        plainChar_ne_colon (by
          rw [plainStr, List.all_eq_true] at hs
          exact hs c hc))]
      rw [ih k v ht hk]
    | param n =>
      obtain ⟨hn, hb, ht⟩ := segsWF_param h
      by_cases hnk : n = k
      · subst hnk
        show replaceColon n v (':' :: (n ++ renderColon t')) = _
        rw [replaceColon_match n v _ hb, ih n v ht hk]
        simp [substSegs1, substSeg, renderColon]
      · show replaceColon k v (':' :: (n ++ renderColon t')) = _
        rw [replaceColon_param_nomatch k v n _ hn hk hnk hb, ih k v ht hk]
        simp [substSegs1, substSeg, hnk, renderColon]

/-- One brace replacement on a brace-rendered template substitutes exactly the
placeholders named by the key. -/
theorem replaceBrace_render :
    ∀ (t : List PathSeg) (k v : List Char), segsWF t = true →
      k.all isIdentChar = true →
      replaceBrace k v (renderBrace t) = renderBrace (substSegs1 k v t) := by
  intro t
  induction t with
  | nil => intro k v _ _; rfl
  | cons seg t' ih =>
    intro k v h hk
    cases seg with
    | lit s =>
      obtain ⟨hs, ht⟩ := segsWF_lit h
      show replaceBrace k v (s ++ renderBrace t') = s ++ renderBrace (substSegs1 k v t')
      rw [replaceBrace_append_skip k v s _ (fun c hc =>
        plainChar_ne_lbrace (by
          rw [plainStr, List.all_eq_true] at hs
          exact hs c hc))]
      rw [ih k v ht hk]
    | param n =>
      obtain ⟨hn, _, ht⟩ := segsWF_param h
      by_cases hnk : n = k
      · subst hnk
        show replaceBrace n v ('{' :: (n ++ '}' :: renderBrace t')) = _
        rw [replaceBrace_match n v _, ih n v ht hk]
        simp [substSegs1, substSeg, renderBrace]
      · show replaceBrace k v ('{' :: (n ++ '}' :: renderBrace t')) = _
        rw [replaceBrace_param_nomatch k v n _ hn hk hnk, ih k v ht hk]
        simp [substSegs1, substSeg, hnk, renderBrace]

/-- Substitution preserves the colon boundary at the head of the rendering. -/
theorem boundaryOk_subst :
    ∀ (t : List PathSeg) (k v : List Char), boundaryOk (renderColon t) = true →
      boundaryOk (renderColon (substSegs1 k v t)) = true := by
  intro t
  induction t with
  | nil => intro _ _ h; exact h
  | cons seg t' ih =>
    intro k v h
    cases seg with
    | lit s =>
      cases s with
      | nil =>
        show boundaryOk ([] ++ renderColon (substSegs1 k v t')) = true
        simp only [List.nil_append]
        exact ih k v (by simpa [renderColon] using h)
      | cons c s' =>
        have hc : (c == '/') = true := by
          simpa [renderColon, boundaryOk] using h
        show boundaryOk ((c :: s') ++ renderColon (substSegs1 k v t')) = true
        simpa [boundaryOk] using hc
    | param n =>
      exact Bool.noConfusion h

/-- Substitution with a plain value preserves template well-formedness. -/
theorem segsWF_subst :
    ∀ (t : List PathSeg) (k v : List Char), segsWF t = true → plainStr v = true →
      segsWF (substSegs1 k v t) = true := by
  intro t
  induction t with
  | nil => intro _ _ _ _; rfl
  | cons seg t' ih =>
    intro k v h hv
    cases seg with
    | lit s =>
      obtain ⟨hs, ht⟩ := segsWF_lit h
      show segsWF (.lit s :: substSegs1 k v t') = true
      simp [segsWF, hs, ih k v ht hv]
    | param n =>
      obtain ⟨hn, hb, ht⟩ := segsWF_param h
      by_cases hnk : n = k
      · subst hnk
        show segsWF (substSeg n v (.param n) :: substSegs1 n v t') = true
        simp [substSeg, segsWF, hv, ih n v ht hv]
      · show segsWF (substSeg k v (.param n) :: substSegs1 k v t') = true
        simp [substSeg, hnk, segsWF, hn, boundaryOk_subst t' k v hb, ih k v ht hv]

/-- Folding the whole params list over the colon rendering substitutes all
matching placeholders, entry by entry. -/
theorem resolveEntries_renderColon :
    ∀ (m : List (List Char × List Char)) (t : List PathSeg), segsWF t = true →
      m.all entryOK = true →
      resolveEntries m (renderColon t) = renderColon (substAll m t) := by
  intro m
  induction m with
  | nil => intro t _ _; rfl
  | cons kv m' ih =>
    intro t ht hm
    simp only [List.all_cons, Bool.and_eq_true, entryOK] at hm
    obtain ⟨⟨hk, hv⟩, hm'⟩ := hm
    show resolveEntries m' (replaceBrace kv.1 kv.2 (replaceColon kv.1 kv.2 (renderColon t))) =
      renderColon (substAll m' (substSegs1 kv.1 kv.2 t))
    rw [replaceColon_render t kv.1 kv.2 ht hk]
    rw [replaceBrace_id kv.1 kv.2 _
      (renderColon_no_lbrace _ (segsWF_subst t kv.1 kv.2 ht hv))]
    exact ih _ (segsWF_subst t kv.1 kv.2 ht hv) hm'

/-- Same for the brace rendering: the colon pass is a no-op there, and the
brace pass substitutes. -/
theorem resolveEntries_renderBrace :
    ∀ (m : List (List Char × List Char)) (t : List PathSeg), segsWF t = true →
      m.all entryOK = true →
      resolveEntries m (renderBrace t) = renderBrace (substAll m t) := by
  intro m
  induction m with
  | nil => intro t _ _; rfl
  | cons kv m' ih =>
    intro t ht hm
    simp only [List.all_cons, Bool.and_eq_true, entryOK] at hm
    obtain ⟨⟨hk, hv⟩, hm'⟩ := hm
    show resolveEntries m' (replaceBrace kv.1 kv.2 (replaceColon kv.1 kv.2 (renderBrace t))) =
      renderBrace (substAll m' (substSegs1 kv.1 kv.2 t))
    rw [replaceColon_id kv.1 kv.2 _ (renderBrace_no_colon _ ht)]
    rw [replaceBrace_render t kv.1 kv.2 ht hk]
    exact ih _ (segsWF_subst t kv.1 kv.2 ht hv) hm'

theorem paramNames_subst1 (k v : List Char) :
    ∀ t : List PathSeg,
      paramNames (substSegs1 k v t) = (paramNames t).filter (fun n => n ≠ k) := by
  intro t
  induction t with
  | nil => rfl
  | cons seg t' ih =>
    cases seg with
    | lit s =>
      show paramNames (.lit s :: substSegs1 k v t') = _
      simp [paramNames, ih]
    | param n =>
      by_cases hnk : n = k
      · subst hnk
        show paramNames (substSeg n v (.param n) :: substSegs1 n v t') = _
        simp [substSeg, paramNames, ih]
      · show paramNames (substSeg k v (.param n) :: substSegs1 k v t') = _
        simp [substSeg, hnk, paramNames, ih]

theorem paramNames_substAll :
    ∀ (m : List (List Char × List Char)) (t : List PathSeg) (n : List Char),
      n ∈ paramNames (substAll m t) ↔ n ∈ paramNames t ∧ n ∉ m.map Prod.fst := by
  intro m
  induction m with
  | nil => intro t n; simp [substAll]
  | cons kv m' ih =>
    intro t n
    show n ∈ paramNames (substAll m' (substSegs1 kv.1 kv.2 t)) ↔ _
    rw [ih, paramNames_subst1, List.mem_filter]
    simp only [List.map_cons, List.mem_cons, not_or, decide_eq_true_eq]
    tauto

/-- A fully substituted template renders identically in both notations. -/
theorem render_eq_of_noParams :
    ∀ u : List PathSeg, paramNames u = [] → renderColon u = renderBrace u := by
  intro u
  induction u with
  | nil => intro _; rfl
  | cons seg u' ih =>
    intro h
    cases seg with
    | lit s =>
      show s ++ renderColon u' = s ++ renderBrace u'
      rw [ih (by simpa [paramNames] using h)]
    | param n => simp [paramNames] at h

/-! ## Claims C1 and C5 -/

/-- Claim C1: for a well-formed path template and a params mapping with
identifier keys and plain string values that covers every placeholder,
resolving the colon rendering and resolving the brace rendering yield the
same concrete path, namely the template with every placeholder replaced by
its value. -/
theorem c1_dual_syntax_resolution (t : List PathSeg) (m : List (List Char × List Char))
    (hwf : segsWF t = true) (hm : m.all entryOK = true)
    (hcov : ∀ n ∈ paramNames t, n ∈ m.map Prod.fst) :
    makeFullPath (String.mk (renderColon t))
        (m.map fun kv => (String.mk kv.1, String.mk kv.2)) =
      makeFullPath (String.mk (renderBrace t))
        (m.map fun kv => (String.mk kv.1, String.mk kv.2)) ∧
    makeFullPath (String.mk (renderColon t))
        (m.map fun kv => (String.mk kv.1, String.mk kv.2)) =
      String.mk (renderColon (substAll m t)) := by
  have hnames : paramNames (substAll m t) = [] := by
    rw [List.eq_nil_iff_forall_not_mem]
    intro n hn
    rw [paramNames_substAll] at hn
    exact hn.2 (hcov n hn.1)
  have hcolon : makeFullPath (String.mk (renderColon t))
      (m.map fun kv => (String.mk kv.1, String.mk kv.2)) =
      String.mk (renderColon (substAll m t)) := by
    rw [makeFullPath_eq_resolveEntries, resolveEntries_renderColon m t hwf hm]
  have hbrace : makeFullPath (String.mk (renderBrace t))
      (m.map fun kv => (String.mk kv.1, String.mk kv.2)) =
      String.mk (renderBrace (substAll m t)) := by
    rw [makeFullPath_eq_resolveEntries, resolveEntries_renderBrace m t hwf hm]
  refine ⟨?_, hcolon⟩
  rw [hcolon, hbrace, render_eq_of_noParams _ hnames]

/-- The claim's template, as a segment list. -/
def c1Template : List PathSeg :=
  [ .lit "/users/".data, .param "id".data, .lit "/posts/".data, .param "postId".data ]

/-- The claim's params mapping. -/
def c1Params : List (List Char × List Char) :=
  [ ("id".data, "7".data), ("postId".data, "9".data) ]

/-- Claim C1 witness: the two renderings are the claim's two template strings,
and both resolve to `/users/7/posts/9`. -/
theorem c1_witness :
    String.mk (renderColon c1Template) = "/users/:id/posts/:postId" ∧
    String.mk (renderBrace c1Template) = "/users/{id}/posts/{postId}" ∧
    makeFullPath (String.mk (renderColon c1Template))
        (c1Params.map fun kv => (String.mk kv.1, String.mk kv.2)) = "/users/7/posts/9" ∧
    makeFullPath (String.mk (renderBrace c1Template))
        (c1Params.map fun kv => (String.mk kv.1, String.mk kv.2)) = "/users/7/posts/9" := by
  obtain ⟨he, hr⟩ := c1_dual_syntax_resolution c1Template c1Params
    (by decide) (by decide) (by decide)
  exact ⟨by decide, by decide, hr.trans (by decide), (he.symm.trans hr).trans (by decide)⟩

/-- Claim C5: path resolution is permissive and total — a path without
placeholder delimiters is returned unchanged under every params mapping
(keys absent from the template are silently ignored), and on a well-formed
template resolution replaces exactly the placeholders whose names occur as
keys, leaving the placeholders of all other names unresolved in the output;
no error is possible (the operations are total functions). -/
theorem c5_permissive_resolution :
    (∀ (path : String) (ps : List (String × String)),
      (∀ c ∈ path.data, c ≠ ':' ∧ c ≠ '{') → makeFullPath path ps = path) ∧
    (∀ (t : List PathSeg) (m : List (List Char × List Char)),
      segsWF t = true → m.all entryOK = true →
      makeFullPath (String.mk (renderColon t))
          (m.map fun kv => (String.mk kv.1, String.mk kv.2)) =
        String.mk (renderColon (substAll m t)) ∧
      ∀ n, n ∈ paramNames (substAll m t) ↔ n ∈ paramNames t ∧ n ∉ m.map Prod.fst) := by
  constructor
  · intro path ps h
    have haux : ∀ (qs : List (String × String)) (s : List Char),
        (∀ c ∈ s, c ≠ ':' ∧ c ≠ '{') →
        List.foldl (fun p kv => replaceBrace kv.1.data kv.2.data
          (replaceColon kv.1.data kv.2.data p)) s qs = s := by
      intro qs
      induction qs with
      | nil => intro s _; rfl
      | cons kv qs' ih =>
        intro s hs
        show List.foldl _ (replaceBrace kv.1.data kv.2.data
          (replaceColon kv.1.data kv.2.data s)) qs' = s
        rw [replaceColon_id _ _ s (fun c hc => (hs c hc).1),
          replaceBrace_id _ _ s (fun c hc => (hs c hc).2)]
        exact ih s hs
    show String.mk _ = path
    rw [haux ps path.data h]
  · intro t m hwf hm
    refine ⟨?_, paramNames_substAll m t⟩
    rw [makeFullPath_eq_resolveEntries, resolveEntries_renderColon m t hwf hm]

/-- Claim C5 witness: the claim's example — a template without placeholders is
unchanged by a mapping with an unused key. -/
theorem c5_witness : makeFullPath "/users" [("id", "7")] = "/users" := by
  exact c5_permissive_resolution.1 "/users" [("id", "7")] (by decide)

/-! ## Claim C9 -/

theorem validate_array_iff (e : Schema) (v : JSValue) :
    validate (.sArray e) v = true ↔
      ∃ xs, v = .arr xs ∧ allItems (fun x => validate e x) xs = true := by
  cases v <;> simp [validate]

/-- With no name collision, the list envelope is the object schema whose first
field is the wrapped array and whose remaining fields are the metadata
schema's. -/
theorem list_schema_eq (payload : Schema) (key : String) (mf : FieldList)
    (h : key ∉ mf.names) :
    makeResponseSuccessShape.list payload key (.sObject mf) =
      .sObject (.cons key (.sArray payload) mf) := by
  show mergeObj _ _ = _
  simp [mergeObj, FieldList.removeNames, h, FieldList.append]

/-- Claim C9: provided the metadata schema's field names avoid the wrapping
key, the `list(metaSchema)` envelope accepts exactly the objects carrying the
wrapping key mapped to a sequence of payload-schema values together with
fields satisfying the metadata schema (shallow field union), and rejects any
object missing the wrapping key. -/
theorem c9_list_envelope (payload : Schema) (key : String) (mf : FieldList)
    (v : JSValue) (hkey : key ∉ mf.names) :
    (validate (makeResponseSuccessShape.list payload key (.sObject mf)) v = true ↔
      ∃ kvs, v = .obj kvs ∧
        (∃ xs, kvs.lookup key = some (.arr xs) ∧
          allItems (fun x => validate payload x) xs = true) ∧
        validateFields mf kvs = true) ∧
    (∀ kvs, v = .obj kvs → kvs.lookup key = none →
      validate (makeResponseSuccessShape.list payload key (.sObject mf)) v = false) := by
  rw [list_schema_eq payload key mf hkey]
  constructor
  · constructor
    · intro h
      cases v with
      | obj kvs =>
        refine ⟨kvs, rfl, ?_⟩
        simp only [validate, validateFields, Bool.and_eq_true] at h
        obtain ⟨h1, h2⟩ := h
        refine ⟨?_, h2⟩
        cases hl : kvs.lookup key with
        | none =>
          rw [hl] at h1
          exact Bool.noConfusion h1
        | some x =>
          rw [hl] at h1
          cases x with
          | arr xs => exact ⟨xs, rfl, h1⟩
          | null => exact Bool.noConfusion h1
          | undef => exact Bool.noConfusion h1
          | boolV b => exact Bool.noConfusion h1
          | num n => exact Bool.noConfusion h1
          | str s => exact Bool.noConfusion h1
          | obj fs2 => exact Bool.noConfusion h1
          | formData es => exact Bool.noConfusion h1
          | urlParams es => exact Bool.noConfusion h1
          | blob p b => exact Bool.noConfusion h1
          | file a b => exact Bool.noConfusion h1
          | arrayBuffer bs => exact Bool.noConfusion h1
          | stream => exact Bool.noConfusion h1
      | null => exact Bool.noConfusion h
      | undef => exact Bool.noConfusion h
      | boolV b => exact Bool.noConfusion h
      | num n => exact Bool.noConfusion h
      | str s => exact Bool.noConfusion h
      | arr xs => exact Bool.noConfusion h
      | formData es => exact Bool.noConfusion h
      | urlParams es => exact Bool.noConfusion h
      | blob p b => exact Bool.noConfusion h
      | file a b => exact Bool.noConfusion h
      | arrayBuffer bs => exact Bool.noConfusion h
      | stream => exact Bool.noConfusion h
    · rintro ⟨kvs, rfl, ⟨xs, hlook, hall⟩, hmf⟩
      show validateFields (.cons key (.sArray payload) mf) kvs = true
      simp [validateFields, hlook, validate, hall, hmf]
  · rintro kvs rfl hlook
    show validateFields (.cons key (.sArray payload) mf) kvs = false
    simp [validateFields, hlook, validate]

/-- Claim C9 witness: a concrete paginated list envelope accepts the claim's
shape and rejects the same object without the wrapping key. -/
theorem c9_witness :
    validate (makeResponseSuccessShape.list .sString "items"
        (.sObject (.cons "page" .sNumber .nil)))
      (.obj (.cons "items" (.arr (.cons (.str "a") .nil))
        (.cons "page" (.num 1) .nil))) = true ∧
    validate (makeResponseSuccessShape.list .sString "items"
        (.sObject (.cons "page" .sNumber .nil)))
      (.obj (.cons "page" (.num 1) .nil)) = false := by
  constructor
  · exact (c9_list_envelope .sString "items" (.cons "page" .sNumber .nil) _
      (by decide)).1.mpr ⟨_, rfl, ⟨.cons (.str "a") .nil, rfl, rfl⟩, rfl⟩
  · exact (c9_list_envelope .sString "items" (.cons "page" .sNumber .nil) _
      (by decide)).2 _ rfl rfl

end KmApi
